import Mathlib

/-!
Verification of `src/batch_recognizer.cc` (vosk-api batch recognizer).

Shallow embedding conventions:
* `uint64_t` session ids are `Nat`.
* `BaseFloat` (float) values are modelled as exact rationals `ℚ`; the
  int16 audio samples are `ℤ` (the int16 → float conversion is exact).
* The external Kaldi collaborators (lattice scaling, word alignment,
  minimum-Bayes-risk extraction, the symbol table, JSON dumping) are
  opaque function parameters gathered in a `Collaborators` structure;
  the file verifies only how `batch_recognizer.cc` composes them.
* The `CudaOnlinePipelineDynamicBatcher` / `cuda_pipeline_` side effects
  (`Push`, `SetLatticeCallback`) are recorded as an output trace of
  `EngineOp` values, so statements about what gets pushed to the engine
  are statements about that trace.
-/

namespace BatchRecognizer

/-- One word of the JSON object built in `PushLattice`:
`{"word": ..., "start": ..., "end": ..., "conf": ...}`. -/
structure TWord where
  word : String
  start : ℚ
  end_ : ℚ
  conf : ℚ
deriving DecidableEq, Repr

/-- The JSON object built in `PushLattice` (pre-serialization shape):
`{"result": [...], "text": ...}`. -/
structure Transcript where
  result : List TWord
  text : String
deriving DecidableEq, Repr

/-- External Kaldi / json.h collaborators used by `batch_recognizer.cc`,
kept opaque: `Lat` is the type of `CompactLattice` values. -/
structure Collaborators (Lat : Type) where
  /-- `fst::ScaleLattice(fst::GraphLatticeScale(s), ·)` for a scale factor `s`. -/
  scaleLattice : ℚ → Lat → Lat
  /-- `WordAlignLattice(·, trans_model_, winfo_, 0, ·)`. -/
  wordAlign : Lat → Lat
  /-- `MinimumBayesRisk(·).GetOneBest()` — word symbol ids. -/
  mbrOneBest : Lat → List Nat
  /-- `MinimumBayesRisk(·).GetOneBestConfidences()`. -/
  mbrConfidences : Lat → List ℚ
  /-- `MinimumBayesRisk(·).GetOneBestTimes()` — per-word (start, end) frame spans. -/
  mbrTimes : Lat → List (ℚ × ℚ)
  /-- `word_syms_->Find(·)`. -/
  findSym : Nat → String
  /-- `json::JSON::dump()` serialization of the built object. -/
  dump : Transcript → String

/-- State of a `BatchRecognizer`: the `streams_` set and the
`results_` map of per-session FIFO queues (front of queue = head of list).
A session id absent from the map behaves as `[]`, matching the
default-constructing `std::map::operator[]`. -/
structure RState where
  streams : List Nat
  results : Nat → List String

/-- Fresh recognizer: no streams, all queues empty. -/
def rstate0 : RState := { streams := [], results := fun _ => [] }

/-- Engine-visible side effects of the recognizer's methods. -/
inductive EngineOp where
  /-- `dynamic_batcher_->Push(id, isFirst, isLast, chunk)`; the chunk is
  the list of sample values (int16, exactly representable as float). -/
  | push (id : Nat) (isFirst isLast : Bool) (samples : List ℤ)
  /-- `cuda_pipeline_->SetLatticeCallback(id, ..., RESULT_TYPE_LATTICE)`. -/
  | setLatticeCallback (id : Nat)
deriving DecidableEq, Repr

/-- The i-th sample read by `*(((short *)data) + i)`: two bytes as a
little-endian signed 16-bit integer. -/
def int16OfBytes (lo hi : Nat) : ℤ :=
  let u := lo % 256 + 256 * (hi % 256)
  if u < 32768 then (u : ℤ) else (u : ℤ) - 65536

/-- The sample list built by the loop `for (i < len / 2) wave(i) = ((short*)data)[i]`:
consecutive byte pairs decoded as little-endian int16; a trailing odd
byte is never read. -/
def decodeSamples : List Nat → List ℤ
  | b0 :: b1 :: rest => int16OfBytes b0 b1 :: decodeSamples rest
  | _ => []

/-- C `round()` (round half away from zero), on exact rationals. -/
def cround (q : ℚ) : ℤ :=
  if 0 ≤ q then (q + 1/2).floor else (q - 1/2).ceil

/-- The lattice after `fst::ScaleLattice(fst::GraphLatticeScale(0.9), &clat)`
(line 135). -/
def scaledLat {Lat : Type} (C : Collaborators Lat) (clat : Lat) : Lat :=
  C.scaleLattice (9/10) clat

/-- The lattice after `WordAlignLattice` (line 138), applied to the scaled
lattice. -/
def alignedLat {Lat : Type} (C : Collaborators Lat) (clat : Lat) : Lat :=
  C.wordAlign (scaledLat C clat)

/-- The text-accumulation loop of `PushLattice`
(`if (i) text << " "; text << word`), index-carrying form. -/
def textAux (i : Nat) (acc : String) : List String → String
  | [] => acc
  | w :: ws => textAux (i + 1) (acc ++ (if i = 0 then "" else " ") ++ w) ws

/-- `text.str()` at the end of the `PushLattice` loop. -/
def textOfWords (ws : List String) : String := textAux 0 "" ws

/-- The JSON object `obj` built by `PushLattice` from lattice `clat` and
time offset `offset` (lines 135-166): scale by 0.9, word-align, MBR
one-best, then per-word `round(frame) * 0.03 + offset` timing. -/
def transcriptOf {Lat : Type} (C : Collaborators Lat) (clat : Lat) (offset : ℚ) :
    Transcript :=
  let words := C.mbrOneBest (alignedLat C clat)
  let conf := C.mbrConfidences (alignedLat C clat)
  let times := C.mbrTimes (alignedLat C clat)
  { result := (List.range words.length).map (fun i =>
      { word := C.findSym (words.getD i 0)
        start := (cround (times.getD i (0, 0)).1 : ℚ) * (3/100) + offset
        end_ := (cround (times.getD i (0, 0)).2 : ℚ) * (3/100) + offset
        conf := conf.getD i 0 })
    text := textOfWords (words.map C.findSym) }

/-- Pointwise update of the `results_` map. -/
def updateQ (f : Nat → List String) (id : Nat) (q : List String) :
    Nat → List String :=
  fun j => if j = id then q else f j

/-- `BatchRecognizer::PushLattice` (lines 133-171): builds the transcript
object and appends its dump to `results_[id]`. -/
def pushLattice {Lat : Type} (C : Collaborators Lat) (id : Nat) (clat : Lat)
    (offset : ℚ) (st : RState) : RState :=
  { st with results :=
      updateQ st.results id (st.results id ++ [C.dump (transcriptOf C clat offset)]) }

/-- The lambda registered by `SetLatticeCallback` (lines 200-211): given the
callback params' `results` vector (each entry a lattice with its time offset
in seconds), an empty vector is logged and dropped; otherwise `PushLattice`
runs on entry 0. -/
def latticeCallback {Lat : Type} (C : Collaborators Lat) (id : Nat)
    (params : List (Lat × ℚ)) (st : RState) : RState :=
  match params with
  | [] => st
  | p :: _ => pushLattice C id p.1 p.2 st

/-- `BatchRecognizer::AcceptWaveform` (lines 173-221): if the id is unknown
it is inserted into `streams_` and the lattice callback is registered; then
the decoded chunk is pushed with `isFirst = first`, `isLast = false`. -/
def acceptWaveform (id : Nat) (data : List Nat) (st : RState) :
    RState × List EngineOp :=
  if id ∈ st.streams then
    (st, [.push id false false (decodeSamples data)])
  else
    ({ st with streams := id :: st.streams },
     [.setLatticeCallback id, .push id true false (decodeSamples data)])

/-- `BatchRecognizer::FinishStream` (lines 124-130): push an empty chunk
with `isFirst = false`, `isLast = true`, then erase the id from `streams_`. -/
def finishStream (id : Nat) (st : RState) : RState × List EngineOp :=
  ({ st with streams := st.streams.filter (fun x => x ≠ id) },
   [.push id false true []])

/-- `BatchRecognizer::FrontResult` (lines 223-229): empty string if the
queue for `id` is empty, otherwise the front element, not removed. -/
def frontResult (id : Nat) (st : RState) : String :=
  if st.results id = [] then "" else (st.results id).headD ""

/-- `BatchRecognizer::Pop` (lines 231-237): no-op on an empty queue,
otherwise remove the front element. -/
def popR (id : Nat) (st : RState) : RState :=
  if st.results id = [] then st
  else { st with results := updateQ st.results id (st.results id).tail }

/-- Interleaved events on one recognizer: caller calls and engine-driven
finalize callbacks (the engine invokes the registered lambda for `id` with
the given params). -/
inductive Op (Lat : Type) where
  | accept (id : Nat) (data : List Nat)
  | finish (id : Nat)
  | callback (id : Nat) (params : List (Lat × ℚ))
  | front (id : Nat)
  | pop (id : Nat)

/-- One event's effect on the state, plus the engine ops it emits. -/
def stepOp {Lat : Type} (C : Collaborators Lat) (st : RState) :
    Op Lat → RState × List EngineOp
  | .accept id data => acceptWaveform id data st
  | .finish id => finishStream id st
  | .callback id params => (latticeCallback C id params st, [])
  | .front _ => (st, [])
  | .pop id => (popR id st, [])

/-- Run a sequence of events, collecting all emitted engine ops. -/
def runOps {Lat : Type} (C : Collaborators Lat) (st : RState) :
    List (Op Lat) → RState × List EngineOp
  | [] => (st, [])
  | op :: rest =>
      let s1 := stepOp C st op
      let s2 := runOps C s1.1 rest
      (s2.1, s1.2 ++ s2.2)

/-- Transcript strings enqueued for session `id` over an event list: one per
finalize callback for `id` whose params carry at least one result (empty
params are dropped by the callback, see `latticeCallback`). -/
def enqueuedFrom {Lat : Type} (C : Collaborators Lat) (id : Nat) :
    List (Op Lat) → List String
  | [] => []
  | .callback j params :: rest =>
      (match params with
       | [] => []
       | p :: _ => if j = id then [C.dump (transcriptOf C p.1 p.2)] else [])
        ++ enqueuedFrom C id rest
  | _ :: rest => enqueuedFrom C id rest

/-- Transcript strings delivered to the caller for session `id` over an event
list: at each `Pop` on a nonempty queue, the value `FrontResult` returns at
that moment (the head being consumed). -/
def deliveredFrom {Lat : Type} (C : Collaborators Lat) (id : Nat) (st : RState) :
    List (Op Lat) → List String
  | [] => []
  | op :: rest =>
      (match op with
       | .pop j => if j = id ∧ st.results j ≠ [] then [(st.results j).headD ""] else []
       | _ => []) ++ deliveredFrom C id (stepOp C st op).1 rest

/-- Whether an event is `FinishStream` for the given id. -/
def isFinishFor {Lat : Type} (id : Nat) : Op Lat → Bool
  | .finish j => j == id
  | _ => false

/-- Number of `SetLatticeCallback` registrations for `id` in an engine-op list. -/
def countSetCb (id : Nat) : List EngineOp → Nat
  | [] => 0
  | .setLatticeCallback j :: rest => (if j = id then 1 else 0) + countSetCb id rest
  | _ :: rest => countSetCb id rest

/-- Spec-side rendering of "word texts concatenated with single-space
separators (no leading or trailing space)". -/
def joinWords : List String → String
  | [] => ""
  | [w] => w
  | w :: ws => w ++ " " ++ joinWords ws

/-- Tail part of a space-joined word list: a leading space before each word. -/
def joinTail : List String → String
  | [] => ""
  | w :: ws => " " ++ w ++ joinTail ws

/-- Default word object used with `List.getD` when indexing transcripts. -/
def twdefault : TWord := { word := "", start := 0, end_ := 0, conf := 0 }

/-- Trivial concrete collaborators (empty lattice world), used to evaluate
the embedding at concrete inputs. -/
def trivC : Collaborators Unit where
  scaleLattice := fun _ l => l
  wordAlign := fun l => l
  mbrOneBest := fun _ => []
  mbrConfidences := fun _ => []
  mbrTimes := fun _ => []
  findSym := fun _ => ""
  dump := fun t => t.text

/-- Concrete collaborators whose MBR one-best is a fixed two-word result,
used to evaluate the transcript builder at concrete inputs. -/
def demoC : Collaborators Unit where
  scaleLattice := fun _ l => l
  wordAlign := fun l => l
  mbrOneBest := fun _ => [1, 2]
  mbrConfidences := fun _ => [1, 9/10]
  mbrTimes := fun _ => [(10, 20), (25, 30)]
  findSym := fun n => if n = 1 then "hello" else "world"
  dump := fun t => t.text

/-- Concrete recognizer state with a two-element result queue for session 4. -/
def stdemo : RState :=
  { streams := [4], results := fun j => if j = 4 then ["a", "b"] else [] }

theorem textAux_succ (ws : List String) :
    ∀ (i : Nat) (acc : String), textAux (i + 1) acc ws = acc ++ joinTail ws := by
  induction ws with
  | nil => intro i acc; simp [textAux, joinTail]
  | cons w ws ih =>
      intro i acc
      simp only [textAux, joinTail, Nat.add_one_ne_zero, if_neg, ih]
      simp [String.append_assoc]

theorem joinWords_cons (w : String) (ws : List String) :
    joinWords (w :: ws) = w ++ joinTail ws := by
  induction ws generalizing w with
  | nil => simp [joinWords, joinTail]
  | cons v vs ih => simp [joinWords, joinTail, ih, String.append_assoc]

theorem textOfWords_eq_joinWords (ws : List String) :
    textOfWords ws = joinWords ws := by
  cases ws with
  | nil => rfl
  | cons w ws =>
      simp only [textOfWords, textAux, if_pos rfl, textAux_succ, joinWords_cons]
      simp

theorem decodeSamples_length :
    ∀ (data : List Nat), (decodeSamples data).length = data.length / 2
  | [] => by simp [decodeSamples]
  | [_] => by simp [decodeSamples]
  | _ :: _ :: rest => by
      have ih := decodeSamples_length rest
      simp only [decodeSamples, List.length_cons, ih]
      omega

theorem decodeSamples_getD :
    ∀ (data : List Nat) (i : Nat), 2 * i + 1 < data.length →
      (decodeSamples data).getD i 0
        = int16OfBytes (data.getD (2 * i) 0) (data.getD (2 * i + 1) 0)
  | [], i, h => by simp at h
  | [_], i, h => by simp at h
  | b0 :: b1 :: rest, 0, _ => by simp [decodeSamples]
  | b0 :: b1 :: rest, n + 1, h => by
      have hlen : 2 * n + 1 < rest.length := by
        simp only [List.length_cons] at h; omega
      have key := decodeSamples_getD rest n hlen
      have e1 : 2 * (n + 1) = 2 * n + 1 + 1 := by ring
      rw [e1]
      simp only [decodeSamples, List.getD_cons_succ]
      exact key

theorem queue_inv {Lat : Type} (C : Collaborators Lat) (id : Nat) :
    ∀ (tr : List (Op Lat)) (st : RState),
      deliveredFrom C id st tr ++ (runOps C st tr).1.results id
        = st.results id ++ enqueuedFrom C id tr := by
  intro tr
  induction tr with
  | nil => intro st; simp [deliveredFrom, runOps, enqueuedFrom]
  | cons op rest ih =>
      intro st
      cases op with
      | accept j data =>
          by_cases hj : j ∈ st.streams <;>
            simp [deliveredFrom, runOps, enqueuedFrom, stepOp, acceptWaveform, hj, ih]
      | finish j =>
          simp [deliveredFrom, runOps, enqueuedFrom, stepOp, finishStream, ih]
      | callback j params =>
          cases params with
          | nil =>
              simp [deliveredFrom, runOps, enqueuedFrom, stepOp, latticeCallback, ih]
          | cons p ps =>
              by_cases hj : j = id
              · subst hj
                simp [deliveredFrom, runOps, enqueuedFrom, stepOp, latticeCallback,
                      pushLattice, updateQ, ih]
              · simp [deliveredFrom, runOps, enqueuedFrom, stepOp, latticeCallback,
                      pushLattice, updateQ, hj, Ne.symm hj, ih]
      | front j =>
          simp [deliveredFrom, runOps, enqueuedFrom, stepOp, ih]
      | pop j =>
          by_cases hj : j = id
          · subst hj
            cases hq : st.results j with
            | nil =>
                simp [deliveredFrom, runOps, enqueuedFrom, stepOp, popR, hq, ih]
            | cons x xs =>
                simp [deliveredFrom, runOps, enqueuedFrom, stepOp, popR, hq,
                      updateQ, ih]
          · by_cases hq : st.results j = [] <;>
              simp [deliveredFrom, runOps, enqueuedFrom, stepOp, popR, hq, hj,
                    Ne.symm hj, updateQ, ih]

theorem countSetCb_append (id : Nat) (l1 l2 : List EngineOp) :
    countSetCb id (l1 ++ l2) = countSetCb id l1 + countSetCb id l2 := by
  induction l1 with
  | nil => simp [countSetCb]
  | cons op rest ih =>
      cases op <;> simp [countSetCb, ih, Nat.add_assoc]

theorem mem_streams_step {Lat : Type} (C : Collaborators Lat) (st : RState)
    (id : Nat) (op : Op Lat) (hop : isFinishFor id op = false)
    (h : id ∈ st.streams) : id ∈ (stepOp C st op).1.streams := by
  cases op with
  | accept j data =>
      by_cases hj : j ∈ st.streams <;>
        simp [stepOp, acceptWaveform, hj, h]
  | finish j =>
      simp only [isFinishFor, beq_eq_false_iff_ne, ne_eq] at hop
      simp [stepOp, finishStream, List.mem_filter, h]
      exact fun e => hop e.symm
  | callback j params =>
      cases params with
      | nil => simpa [stepOp, latticeCallback] using h
      | cons p ps => simpa [stepOp, latticeCallback, pushLattice] using h
  | front j => simpa [stepOp] using h
  | pop j =>
      by_cases hq : st.results j = [] <;> simp [stepOp, popR, hq] <;> exact h

theorem countSetCb_step_zero {Lat : Type} (C : Collaborators Lat) (st : RState)
    (id : Nat) (op : Op Lat) (h : id ∈ st.streams) :
    countSetCb id (stepOp C st op).2 = 0 := by
  cases op with
  | accept j data =>
      by_cases hj : j ∈ st.streams
      · simp [stepOp, acceptWaveform, hj, countSetCb]
      · have hne : j ≠ id := fun e => hj (e ▸ h)
        simp [stepOp, acceptWaveform, hj, countSetCb, hne]
  | finish j => simp [stepOp, finishStream, countSetCb]
  | callback j params => simp [stepOp, countSetCb]
  | front j => simp [stepOp, countSetCb]
  | pop j => simp [stepOp, countSetCb]

theorem countSetCb_run_zero {Lat : Type} (C : Collaborators Lat) (id : Nat) :
    ∀ (tr : List (Op Lat)) (st : RState), id ∈ st.streams →
      tr.all (fun op => !(isFinishFor id op)) = true →
      countSetCb id (runOps C st tr).2 = 0
  | [], _, _, _ => rfl
  | op :: rest, st, h, hall => by
      simp only [List.all_cons, Bool.and_eq_true, Bool.not_eq_true'] at hall
      have h1 := countSetCb_step_zero C st id op h
      have h2 := countSetCb_run_zero C id rest (stepOp C st op).1
        (mem_streams_step C st id op hall.1 h) hall.2
      simp [runOps, countSetCb_append, h1, h2]

/-- C1: for every session id, the transcripts delivered through
`FrontResult`/`Pop` come out in exactly the order the engine's finalize
callbacks fired for that id (callback order is event order in the trace,
which renders the engine's per-id ordering precondition): the delivered
list followed by the still-queued list equals the enqueued list — no
reordering, no duplication, no loss. -/
theorem c1_delivery_in_callback_order {Lat : Type} (C : Collaborators Lat)
    (tr : List (Op Lat)) (id : Nat) :
    deliveredFrom C id rstate0 tr ++ (runOps C rstate0 tr).1.results id
      = enqueuedFrom C id tr := by
  have h := queue_inv C id tr rstate0
  simpa [rstate0] using h

/-- C2 counterexample: session 7 is accepted, finished, and then
`AcceptWaveform` is called again for 7 — the call is NOT rejected: the
chunk is pushed to the engine (as a first chunk of a fresh lifetime, with
the callback registered again), refuting "the audio is not accepted". -/
theorem c2_counterexample :
    (acceptWaveform 7 [1, 0]
        ((finishStream 7 ((acceptWaveform 7 [1, 0] rstate0).1)).1)).2
      = [.setLatticeCallback 7, .push 7 true false [1]] := by
  decide

/-- C2 amended: after `FinishStream(id)` completes, a subsequent
`AcceptWaveform` for that id is not rejected — there is no InvalidSession
check; the id, having been erased from `streams_`, is treated as a brand
new session (callback registered again, chunk pushed with isFirst=true) —
while results already queued for that id remain retrievable until drained. -/
theorem c2_accept_after_finish (st : RState) (id : Nat) (data : List Nat) :
    id ∉ (finishStream id st).1.streams ∧
    (acceptWaveform id data ((finishStream id st).1)).2
      = [.setLatticeCallback id, .push id true false (decodeSamples data)] ∧
    (finishStream id st).1.results = st.results ∧
    frontResult id ((finishStream id st).1) = frontResult id st := by
  have hmem : id ∉ (finishStream id st).1.streams := by
    simp [finishStream, List.mem_filter]
  exact ⟨hmem, by simp [acceptWaveform, hmem], rfl, rfl⟩

/-- C3: the first `AcceptWaveform` for an unknown id registers the lattice
callback and pushes the chunk with isFirst=true, isLast=false; any later
`AcceptWaveform` while the id is registered pushes with isFirst=false and
registers nothing; over a whole lifetime (no intervening `FinishStream`
for the id) the registration happens exactly once. -/
theorem c3_first_chunk_once {Lat : Type} (C : Collaborators Lat)
    (st : RState) (id : Nat) (data : List Nat) (tr : List (Op Lat))
    (h1 : id ∉ st.streams)
    (h2 : tr.all (fun op => !(isFinishFor id op)) = true) :
    (acceptWaveform id data st).2
      = [.setLatticeCallback id, .push id true false (decodeSamples data)] ∧
    (∀ (st2 : RState) (d2 : List Nat), id ∈ st2.streams →
       (acceptWaveform id d2 st2).2
         = [.push id false false (decodeSamples d2)]) ∧
    countSetCb id (runOps C st (Op.accept id data :: tr)).2 = 1 := by
  refine ⟨by simp [acceptWaveform, h1],
          fun st2 d2 hm => by simp [acceptWaveform, hm], ?_⟩
  have hmem : id ∈ (stepOp C st (Op.accept id data)).1.streams := by
    simp [stepOp, acceptWaveform, h1]
  have hz := countSetCb_run_zero C id tr _ hmem h2
  simp [stepOp, acceptWaveform, h1] at hz
  simp [runOps, stepOp, acceptWaveform, h1, countSetCb_append, countSetCb, hz]

/-- C3 witness: a concrete lifetime — first accept for id 9, a second
accept and a pop — registers the callback exactly once. -/
theorem c3_witness :
    countSetCb 9 (runOps trivC rstate0
      [Op.accept 9 [2, 1], Op.accept 9 [], Op.pop 9]).2 = 1 := by
  have h := c3_first_chunk_once trivC rstate0 9 [2, 1]
    [Op.accept 9 [], Op.pop 9] (by simp [rstate0]) (by rfl)
  exact h.2.2

/-- C4 counterexample: a second `FinishStream` for an already-finished id
is not engine-silent — it pushes another final chunk, refuting "it does
not push anything further to the engine". -/
theorem c4_counterexample :
    (finishStream 3 ((finishStream 3 ((acceptWaveform 3 [] rstate0).1)).1)).2
      ≠ [] := by
  decide

/-- C4 amended: `FinishStream(id)` pushes exactly one final empty chunk
with isLast=true, isFirst=false and erases the id from `streams_`,
leaving the result queues intact; a repeated call never crashes and
leaves the registry unchanged, but it pushes another identical final
empty chunk to the engine rather than being a no-op. -/
theorem c4_finish_stream (st : RState) (id : Nat) :
    (finishStream id st).2 = [.push id false true []] ∧
    id ∉ (finishStream id st).1.streams ∧
    (finishStream id st).1.results = st.results ∧
    (finishStream id ((finishStream id st).1)).2 = [.push id false true []] ∧
    (finishStream id ((finishStream id st).1)).1.streams
      = (finishStream id st).1.streams := by
  refine ⟨rfl, ?_, rfl, rfl, ?_⟩
  · simp [finishStream, List.mem_filter]
  · simp [finishStream, List.filter_filter]

/-- C5: `FrontResult` is non-destructive and total — any id (a never-seen
id has the empty queue) yields "" when nothing is queued and otherwise the
oldest undelivered transcript, without removing it; `Pop` on an empty
queue is a no-op and on a nonempty queue removes exactly the head of that
id's queue, leaving other sessions untouched. -/
theorem c5_front_pop (st : RState) (id : Nat) :
    frontResult id st = (st.results id).headD "" ∧
    (st.results id = [] → frontResult id st = "" ∧ popR id st = st) ∧
    (∀ (x : String) (xs : List String), st.results id = x :: xs →
       frontResult id st = x ∧ (popR id st).results id = xs ∧
       ∀ j, j ≠ id → (popR id st).results j = st.results j) := by
  refine ⟨?_, ?_, ?_⟩
  · by_cases h : st.results id = [] <;> simp [frontResult, h]
  · intro h; simp [frontResult, popR, h]
  · intro x xs h
    refine ⟨by simp [frontResult, h], by simp [popR, h, updateQ], ?_⟩
    intro j hj
    simp [popR, h, updateQ, hj]

/-- C5 witness: on a concrete state with queue ["a", "b"] for session 4,
`FrontResult` returns "a" and `Pop` leaves ["b"]. -/
theorem c5_witness :
    frontResult 4 stdemo = "a" ∧ (popR 4 stdemo).results 4 = ["b"] := by
  have h := (c5_front_pop stdemo 4).2.2 "a" ["b"] rfl
  exact ⟨h.1, h.2.1⟩

/-- C6: a finalize callback firing with an empty results vector is dropped:
the state is returned unchanged (nothing enqueued for any session, the
call completes without error). -/
theorem c6_empty_result_dropped {Lat : Type} (C : Collaborators Lat)
    (id : Nat) (params : List (Lat × ℚ)) (st : RState)
    (h : params = []) :
    latticeCallback C id params st = st ∧
    (latticeCallback C id params st).results id = st.results id := by
  subst h
  exact ⟨rfl, rfl⟩

/-- C6 witness: the empty-params callback on a concrete state is the
identity. -/
theorem c6_witness : latticeCallback trivC 0 [] rstate0 = rstate0 :=
  (c6_empty_result_dropped trivC 0 [] rstate0 rfl).1

/-- C7: the transcript's text is the word texts joined by single spaces
(no leading/trailing space); `PushLattice` always appends exactly one
serialized transcript to the session's queue, and an empty one-best word
sequence yields a transcript with empty words and empty text that is
still enqueued. -/
theorem c7_transcript_text {Lat : Type} (C : Collaborators Lat) (clat : Lat)
    (offset : ℚ) (st : RState) (id : Nat) :
    (transcriptOf C clat offset).text
      = joinWords ((C.mbrOneBest (alignedLat C clat)).map C.findSym) ∧
    (pushLattice C id clat offset st).results id
      = st.results id ++ [C.dump (transcriptOf C clat offset)] ∧
    (C.mbrOneBest (alignedLat C clat) = [] →
      (transcriptOf C clat offset).result = [] ∧
      (transcriptOf C clat offset).text = "") := by
  refine ⟨?_, ?_, ?_⟩
  · simp [transcriptOf, textOfWords_eq_joinWords]
  · simp [pushLattice, updateQ]
  · intro h
    simp [transcriptOf, h, textOfWords, textAux]

/-- C7 witness: with collaborators whose MBR one-best is empty, the built
transcript has empty words and empty text. -/
theorem c7_witness :
    (transcriptOf trivC () 0).result = [] ∧ (transcriptOf trivC () 0).text = "" :=
  (c7_transcript_text trivC () 0 rstate0 0).2.2 rfl

/-- C8: the transcript builder scales the lattice by the fixed factor 0.9
before word alignment, and converts every word's frame span to seconds as
round(frame) * 0.03 + offset, for both start and end (floats modelled as
exact rationals, C round as round-half-away-from-zero). -/
theorem c8_timing_constants {Lat : Type} (C : Collaborators Lat) (clat : Lat)
    (offset : ℚ) (i : Nat)
    (hi : i < (C.mbrOneBest (alignedLat C clat)).length) :
    alignedLat C clat = C.wordAlign (C.scaleLattice (9/10) clat) ∧
    ((transcriptOf C clat offset).result.getD i twdefault).start
      = (cround ((C.mbrTimes (alignedLat C clat)).getD i (0, 0)).1 : ℚ)
        * (3/100) + offset ∧
    ((transcriptOf C clat offset).result.getD i twdefault).end_
      = (cround ((C.mbrTimes (alignedLat C clat)).getD i (0, 0)).2 : ℚ)
        * (3/100) + offset := by
  refine ⟨rfl, ?_, ?_⟩ <;>
    simp [transcriptOf, List.getD_eq_getElem?_getD, List.getElem?_map,
          List.getElem?_range, hi]

/-- C8 witness: with concrete two-word collaborators, word 0's start is
round(10) * 0.03 + 0.5. -/
theorem c8_witness :
    ((transcriptOf demoC () (1/2)).result.getD 0 twdefault).start
      = (cround ((demoC.mbrTimes (alignedLat demoC ())).getD 0 (0, 0)).1 : ℚ)
        * (3/100) + 1/2 :=
  (c8_timing_constants demoC () (1/2) 0 (by decide)).2.1

/-- C10: `AcceptWaveform` forwards exactly floor(len/2) samples (a trailing
odd byte is ignored, fewer than 2 bytes give an empty chunk), where sample
i is the i-th little-endian signed 16-bit integer of the byte buffer. -/
theorem c10_accept_decode (id : Nat) (data : List Nat) (st : RState) :
    (id ∈ st.streams →
       (acceptWaveform id data st).2
         = [.push id false false (decodeSamples data)]) ∧
    (id ∉ st.streams →
       (acceptWaveform id data st).2
         = [.setLatticeCallback id, .push id true false (decodeSamples data)]) ∧
    (decodeSamples data).length = data.length / 2 ∧
    (∀ i, 2 * i + 1 < data.length →
       (decodeSamples data).getD i 0
         = int16OfBytes (data.getD (2 * i) 0) (data.getD (2 * i + 1) 0)) :=
  ⟨fun h => by simp [acceptWaveform, h],
   fun h => by simp [acceptWaveform, h],
   decodeSamples_length data,
   decodeSamples_getD data⟩

/-- C10 witness: on the concrete 4-byte buffer [1, 2, 255, 255] the second
sample is the little-endian int16 read of bytes 2 and 3 (i.e. -1). -/
theorem c10_witness :
    (decodeSamples [1, 2, 255, 255]).getD 1 0
      = int16OfBytes ([1, 2, 255, 255].getD 2 0) ([1, 2, 255, 255].getD 3 0) :=
  (c10_accept_decode 0 [1, 2, 255, 255] rstate0).2.2.2 1 (by decide)

end BatchRecognizer
